import Mathlib

/-!
Shallow embedding of the trajectory-replay odometry driver in
`src/kiss_slam/stub_odometry.py`.

Modelling conventions:
* Python floats (timestamps, translation and quaternion components, the
  interpolation fraction) are modelled as rationals `ℚ`; all operations the
  code performs on them (comparison, equality, subtraction, division) are
  exact field/order operations.
* External numerical kernels (scipy rotation construction, the pybind SE3
  interpolator, `np.linalg.inv`, `@` matrix multiplication, the KISS-ICP
  preprocessor, `voxel_down_sample`, the voxel-hash-map `update`) are not part
  of this repository; they are abstracted as fields of an `Ext` record over
  opaque carrier types for poses, point clouds, frames and maps.  The theorems
  below are therefore statements about the control/data flow of the source,
  uniformly in the behaviour of those kernels.
* The Python `dict` keyed by timestamps is modelled as an insertion-ordered
  association list with overwrite-on-existing-key semantics (`dictInsert`);
  `sorted(keys)` is modelled by `List.insertionSort (· ≤ ·)` on the key list.
* Fallible operations (assertions, IndexError, KeyError, ValueError from
  `float(...)`) are modelled with `Except`; each distinct Python failure mode
  gets its own error constructor.
* Python's `while` loop in `bisect.bisect_left` is modelled with an explicit
  iteration bound (`fuel`): the loop interval `hi - lo` strictly shrinks each
  iteration, so any `fuel ≥ hi - lo` (the top-level call uses the list length)
  computes the loop's exit value.
-/

/-- A whitespace-separated field of a trajectory-file line, abstracted by what
`float(field)` does with it: `some q` when it parses as the number `q`, `none`
when `float` raises `ValueError`. -/
abbrev TumField : Type := Option ℚ

/-- External kernels consumed by `stub_odometry.py`, over opaque carrier types
`P` (4x4 pose matrices), `Pts` (point clouds), `Frame` (raw input frames) and
`M` (the voxel hash map). -/
structure ExtOps (P Pts Frame M : Type) where
  /-- `np.eye(4)`. -/
  ident : P
  /-- `create_transformation(translation, quaternion_xyzw)`: builds a 4x4 pose
  from a translation 3-vector and an xyzw quaternion via scipy; the numeric
  construction is external, so it is abstracted as an opaque constructor. -/
  create_transformation : ℚ × ℚ × ℚ → ℚ × ℚ × ℚ × ℚ → P
  /-- `kiss_slam_pybind._interpolate_se3d(t, pose1, pose2)`. -/
  interpolate_se3d : ℚ → P → P → P
  /-- `np.linalg.inv`. -/
  matinv : P → P
  /-- numpy `@` matrix multiplication. -/
  matmul : P → P → P
  /-- `self.preprocessor.preprocess(frame, timestamps, motion_delta)`. -/
  preprocess : Frame → List ℚ → P → Pts
  /-- `voxel_down_sample(points, voxel_size)`. -/
  voxel_down_sample : Pts → ℚ → Pts
  /-- `self.local_map.update(points, pose)`, returning the updated map. -/
  map_update : M → Pts → P → M

/-- Python-`dict` insertion: overwrite the value in place when the key is
present, append a new entry otherwise. -/
def dictInsert {P : Type} (d : List (ℚ × P)) (k : ℚ) (v : P) : List (ℚ × P) :=
  if d.any (fun p => p.1 == k) then d.map (fun p => if p.1 == k then (k, v) else p)
  else d ++ [(k, v)]

/-- Python-`dict` lookup, `d.get(k)` / `k in d`. -/
def dictGet? {P : Type} (d : List (ℚ × P)) (k : ℚ) : Option P :=
  (d.find? (fun p => p.1 == k)).map Prod.snd

/-- Python-`dict` key list, `d.keys()` (in insertion order). -/
def dictKeys {P : Type} (d : List (ℚ × P)) : List ℚ := d.map Prod.fst

/-- Errors raised while loading a trajectory:
`assertFileMissing` is the `assert trajectory_fp.exists()` failure,
`valueError` is the `ValueError` from `float(...)` on a non-numeric field. -/
inductive LoadErr : Type
  | assertFileMissing
  | valueError
deriving DecidableEq

/-- The eight `float(parts[i])` conversions of an 8-field line, in order:
timestamp, tx, ty, tz, qx, qy, qz, qw.  `none` when some conversion raises. -/
def lineFloats8 (l : List TumField) : Option (ℚ × ℚ × ℚ × ℚ × ℚ × ℚ × ℚ × ℚ) :=
  match l with
  | [f0, f1, f2, f3, f4, f5, f6, f7] => do
    let t ← f0
    let tx ← f1
    let ty ← f2
    let tz ← f3
    let qx ← f4
    let qy ← f5
    let qz ← f6
    let qw ← f7
    pure (t, tx, ty, tz, qx, qy, qz, qw)
  | _ => none

/-- The `for line in f` loop of `read_tum_trajectory`: lines whose field count
is not 8 are skipped; an 8-field line is parsed (a non-numeric field raising
`ValueError`) and inserted into the dict under its timestamp. -/
def read_tum_lines {P Pts Frame M : Type} (E : ExtOps P Pts Frame M)
    (acc : List (ℚ × P)) : List (List TumField) → Except LoadErr (List (ℚ × P))
  | [] => .ok acc
  | line :: rest =>
    if line.length = 8 then
      match lineFloats8 line with
      | some (t, tx, ty, tz, qx, qy, qz, qw) =>
        read_tum_lines E
          (dictInsert acc t (E.create_transformation (tx, ty, tz) (qx, qy, qz, qw))) rest
      | none => .error .valueError
    else read_tum_lines E acc rest

/-- `read_tum_trajectory(trajectory_fp)`: asserts the file exists
(`none` models a missing file, `some lines` its split lines), then runs the
parsing loop starting from the empty dict. -/
def read_tum_trajectory {P Pts Frame M : Type} (E : ExtOps P Pts Frame M)
    (file : Option (List (List TumField))) : Except LoadErr (List (ℚ × P)) :=
  match file with
  | none => .error .assertFileMissing
  | some lines => read_tum_lines E [] lines

/-- Python's `sorted(...)` applied to the dict's key list. -/
def pySorted (l : List ℚ) : List ℚ := l.insertionSort (· ≤ ·)

/-- The mutable state of a `StubOdometry` object: the trajectory dict, the
sorted timestamp list, `last_pose`, `local_map`, and the
`config.mapping.voxel_size` optional config value consulted by
`register_frame`. -/
structure StubState (P M : Type) where
  traj : List (ℚ × P)
  sortedTimes : List ℚ
  lastPose : P
  localMap : M
  voxelSize : Option ℚ

/-- `StubOdometry.__init__`: reads the trajectory (failing like the source on
a missing file or an unparseable 8-field line), sorts its keys, sets
`last_pose = np.eye(4)`; `m0` is the fresh `local_map` and `voxelSize` the
configured `mapping.voxel_size`. -/
def StubOdometry.init {P Pts Frame M : Type} (E : ExtOps P Pts Frame M) (m0 : M)
    (voxelSize : Option ℚ) (file : Option (List (List TumField))) :
    Except LoadErr (StubState P M) :=
  match read_tum_trajectory E file with
  | .error e => .error e
  | .ok d => .ok ⟨d, pySorted (dictKeys d), E.ident, m0, voxelSize⟩

/-- The `while lo < hi` loop of `bisect.bisect_left`, with an explicit
iteration bound `fuel` (the interval `hi - lo` strictly shrinks each pass, so
any `fuel ≥ hi - lo` returns the loop's exit value `lo`).  The list is
indexed with a default that is never reached for `hi ≤ a.length`. -/
def bisect_left_loop (a : List ℚ) (x : ℚ) : Nat → Nat → Nat → Nat
  | 0, lo, _ => lo
  | fuel + 1, lo, hi =>
    if lo < hi then
      if a.getD ((lo + hi) / 2) 0 < x then bisect_left_loop a x fuel ((lo + hi) / 2 + 1) hi
      else bisect_left_loop a x fuel lo ((lo + hi) / 2)
    else lo

/-- `bisect.bisect_left(a, x)` with the default bounds `lo = 0`,
`hi = len(a)`. -/
def bisect_left (a : List ℚ) (x : ℚ) : Nat :=
  bisect_left_loop a x a.length 0 a.length

/-- Failure modes of `StubOdometry._get_pose`: list indexing out of range
(`IndexError`), dict access on an absent key (`KeyError`), the
`assert lower_idx >= 0` failure, and the `assert t1 < stamp and t2 > stamp`
failure. -/
inductive PoseErr : Type
  | indexError
  | keyError
  | assertLowerIdx
  | assertBracket
deriving DecidableEq

/-- `StubOdometry._get_pose(stamp)`.  Branches in source order: dict hit;
`stamp < sorted[0]` (indexing raising `IndexError` on an empty list) returning
identity; otherwise `bisect_left`, the `lower_idx >= 0` assertion (with
`lower_idx = upper_idx - 1` over ints, `lower_idx < 0` iff `upper_idx = 0`),
the two list indexings, the bracket assertion, the two dict accesses, and the
SE3 interpolation at `t = (stamp - t1) / (t2 - t1)`. -/
def StubOdometry.getPose {P Pts Frame M : Type} (E : ExtOps P Pts Frame M)
    (s : StubState P M) (stamp : ℚ) : Except PoseErr P :=
  match dictGet? s.traj stamp with
  | some pose => .ok pose
  | none =>
    match s.sortedTimes[0]? with
    | none => .error .indexError
    | some t0 =>
      if stamp < t0 then .ok E.ident
      else
        let upper_idx := bisect_left s.sortedTimes stamp
        if upper_idx = 0 then .error .assertLowerIdx
        else
          let lower_idx := upper_idx - 1
          match s.sortedTimes[lower_idx]?, s.sortedTimes[upper_idx]? with
          | some t1, some t2 =>
            if t1 < stamp ∧ stamp < t2 then
              match dictGet? s.traj t1, dictGet? s.traj t2 with
              | some pose1, some pose2 =>
                .ok (E.interpolate_se3d ((stamp - t1) / (t2 - t1)) pose1 pose2)
              | _, _ => .error .keyError
            else .error .assertBracket
          | _, _ => .error .indexError

/-- Failure modes of `StubOdometry.register_frame`: `min()`/`max()` of an
empty timestamp sequence (`ValueError`), a propagated `_get_pose` failure, and
the `assert self.config.mapping.voxel_size is not None` failure. -/
inductive RegErr : Type
  | valueErrorEmpty
  | poseErr (e : PoseErr)
  | assertVoxelSizeNone
deriving DecidableEq

/-- Python `min(timestamps)` over a sequence. -/
def pyMin : List ℚ → Option ℚ
  | [] => none
  | t :: ts => some (ts.foldl min t)

/-- Python `max(timestamps)` over a sequence. -/
def pyMax : List ℚ → Option ℚ
  | [] => none
  | t :: ts => some (ts.foldl max t)

/-- `StubOdometry.register_frame(frame, timestamps)`: takes the min and max
point timestamp, looks up both poses, forms
`motion_delta = inv(min_pose) @ max_pose`, deskews, downsamples at half the
mapping voxel size, composes `new_pose = last_pose @ motion_delta`, updates
the local map, stores `new_pose` as `last_pose`, and returns
`(deskewed_frame, None)`. -/
def StubOdometry.register_frame {P Pts Frame M : Type} (E : ExtOps P Pts Frame M)
    (s : StubState P M) (frame : Frame) (timestamps : List ℚ) :
    Except RegErr (StubState P M × (Pts × Option P)) :=
  match timestamps with
  | [] => .error .valueErrorEmpty
  | t :: ts =>
    let min_stamp := ts.foldl min t
    let max_stamp := ts.foldl max t
    match StubOdometry.getPose E s min_stamp with
    | .error e => .error (.poseErr e)
    | .ok min_stamp_pose =>
      match StubOdometry.getPose E s max_stamp with
      | .error e => .error (.poseErr e)
      | .ok max_stamp_pose =>
        let motion_delta := E.matmul (E.matinv min_stamp_pose) max_stamp_pose
        let deskewed_frame := E.preprocess frame timestamps motion_delta
        match s.voxelSize with
        | none => .error .assertVoxelSizeNone
        | some v =>
          let frame_downsample := E.voxel_down_sample deskewed_frame (v * (1 / 2))
          let new_pose := E.matmul s.lastPose motion_delta
          let map1 := E.map_update s.localMap frame_downsample new_pose
          .ok ({ s with lastPose := new_pose, localMap := map1 }, (deskewed_frame, none))

/-- Invariant of a loaded `StubOdometry`: the sorted timestamp list is
strictly sorted and is a permutation of the trajectory dict's keys.
Established by `StubOdometry.init` (see `init_wf`). -/
def TrajWF {P M : Type} (s : StubState P M) : Prop :=
  s.sortedTimes.Sorted (· < ·) ∧ s.sortedTimes.Perm (dictKeys s.traj)

/-- A concrete instantiation of the external kernels over integer carriers,
used to evaluate the development on explicit inputs. -/
def extO : ExtOps Int Int Int Int where
  ident := 1
  create_transformation := fun _ _ => 0
  interpolate_se3d := fun _ p q => p + q
  matinv := fun p => -p
  matmul := fun p q => p + q
  preprocess := fun f _ d => f + d
  voxel_down_sample := fun p _ => p
  map_update := fun m pts pose => m + pts + pose

/-- A well-formed TUM line with the given timestamp, translation `(0,0,0)`
and quaternion `(0,0,0,1)`. -/
def lineAt (t : ℚ) : List TumField :=
  [some t, some 0, some 0, some 0, some 0, some 0, some 0, some 1]

/-- A line with only 5 fields (skipped by the loader). -/
def badLine5 : List TumField := [some 0, some 0, some 0, some 0, some 0]

/-- An 8-field line whose fourth field is not parseable as a float. -/
def badLineNaN : List TumField :=
  [some 0, some 0, some 0, none, some 0, some 0, some 0, some 1]

/-- A two-sample trajectory file with timestamps 0 and 2. -/
def fileEx : List (List TumField) := [lineAt 0, lineAt 2]

/-- The state `StubOdometry.init extO 0 (some 1) (some fileEx)` produces. -/
def sEx : StubState Int Int :=
  ⟨[(0, 0), (2, 0)], [0, 2], 1, 0, some 1⟩

/-- A dict lookup succeeds exactly on the stored keys. -/
theorem dictGet?_isSome_iff {P : Type} (d : List (ℚ × P)) (k : ℚ) :
    (dictGet? d k).isSome ↔ k ∈ dictKeys d := by
  unfold dictGet? dictKeys
  simp [List.find?_isSome, List.mem_map, beq_iff_eq]

/-- A dict lookup fails exactly on the absent keys. -/
theorem dictGet?_eq_none_iff {P : Type} (d : List (ℚ × P)) (k : ℚ) :
    dictGet? d k = none ↔ k ∉ dictKeys d := by
  rw [← dictGet?_isSome_iff]
  cases dictGet? d k <;> simp

/-- With no duplicate keys, looking up the key of a stored entry returns that
entry's value. -/
theorem dictGet?_eq_some_of_mem {P : Type} {d : List (ℚ × P)}
    (hnd : (dictKeys d).Nodup) {k : ℚ} {p : P} (hmem : (k, p) ∈ d) :
    dictGet? d k = some p := by
  induction d with
  | nil => cases hmem
  | cons a rest ih =>
    simp only [dictKeys, List.map_cons, List.nodup_cons] at hnd
    by_cases h : a.1 = k
    · rcases List.mem_cons.mp hmem with rfl | hm
      · simp [dictGet?, List.find?_cons, h]
      · exact absurd (h ▸ List.mem_map.mpr ⟨(k, p), hm, rfl⟩) hnd.1
    · rcases List.mem_cons.mp hmem with rfl | hm
      · exact absurd rfl h
      · have := ih hnd.2 hm
        simpa [dictGet?, List.find?_cons, h] using this

/-- Inserting an already-present key leaves the key list unchanged. -/
theorem dictKeys_dictInsert_of_mem {P : Type} (d : List (ℚ × P)) (k : ℚ) (v : P)
    (h : d.any (fun p => p.1 == k) = true) :
    dictKeys (dictInsert d k v) = dictKeys d := by
  unfold dictInsert dictKeys
  rw [if_pos h, List.map_map]
  apply List.map_congr_left
  intro p _
  by_cases hpk : p.1 = k
  · simp [hpk]
  · simp [hpk]

/-- Inserting an absent key appends it to the key list. -/
theorem dictKeys_dictInsert_of_not_mem {P : Type} (d : List (ℚ × P)) (k : ℚ) (v : P)
    (h : ¬ d.any (fun p => p.1 == k) = true) :
    dictKeys (dictInsert d k v) = dictKeys d ++ [k] := by
  unfold dictInsert dictKeys
  rw [if_neg h, List.map_append]
  rfl

/-- Dict insertion preserves key uniqueness. -/
theorem nodup_dictKeys_dictInsert {P : Type} {d : List (ℚ × P)}
    (hnd : (dictKeys d).Nodup) (k : ℚ) (v : P) :
    (dictKeys (dictInsert d k v)).Nodup := by
  by_cases h : d.any (fun p => p.1 == k) = true
  · rw [dictKeys_dictInsert_of_mem d k v h]; exact hnd
  · rw [dictKeys_dictInsert_of_not_mem d k v h, List.nodup_append]
    refine ⟨hnd, List.nodup_singleton k, ?_⟩
    intro x hx hk
    rw [List.mem_singleton] at hk
    subst hk
    rw [List.any_eq_true] at h
    obtain ⟨p, hp, rfl⟩ := List.mem_map.mp hx
    exact h ⟨p, hp, beq_iff_eq.mpr rfl⟩

/-- A line whose field count is not 8 is skipped by the parsing loop. -/
theorem read_tum_lines_skip {P Pts Frame M : Type} (E : ExtOps P Pts Frame M)
    (acc : List (ℚ × P)) (line : List TumField) (rest : List (List TumField))
    (h : line.length ≠ 8) :
    read_tum_lines E acc (line :: rest) = read_tum_lines E acc rest := by
  simp only [read_tum_lines]
  rw [if_neg h]

/-- A file none of whose lines has 8 fields parses to the unchanged
accumulator, without error. -/
theorem read_tum_lines_all_skip {P Pts Frame M : Type} (E : ExtOps P Pts Frame M)
    (acc : List (ℚ × P)) (lines : List (List TumField))
    (h : ∀ l ∈ lines, l.length ≠ 8) :
    read_tum_lines E acc lines = .ok acc := by
  induction lines with
  | nil => rfl
  | cons line rest ih =>
    rw [read_tum_lines_skip E acc line rest (h line (List.mem_cons_self line rest))]
    exact ih fun l hl => h l (List.mem_cons_of_mem line hl)

/-- The parsing loop preserves key uniqueness of the accumulated dict. -/
theorem read_tum_lines_ok_nodup {P Pts Frame M : Type} (E : ExtOps P Pts Frame M) :
    ∀ (lines : List (List TumField)) (acc d : List (ℚ × P)),
    (dictKeys acc).Nodup → read_tum_lines E acc lines = .ok d →
    (dictKeys d).Nodup := by
  intro lines
  induction lines with
  | nil =>
    intro acc d h heq
    simp only [read_tum_lines, Except.ok.injEq] at heq
    exact heq ▸ h
  | cons line rest ih =>
    intro acc d h heq
    simp only [read_tum_lines] at heq
    split at heq
    · split at heq
      · exact ih _ _ (nodup_dictKeys_dictInsert h _ _) heq
      · cases heq
    · exact ih _ _ h heq

/-- Anatomy of a successful `StubOdometry.init`: the file was present, its
lines parsed to a dict `d`, and the state is built from `d` as in the
source. -/
theorem init_ok_cases {P Pts Frame M : Type} (E : ExtOps P Pts Frame M) (m0 : M)
    (vox : Option ℚ) (file : Option (List (List TumField))) (s : StubState P M)
    (h : StubOdometry.init E m0 vox file = .ok s) :
    ∃ lines d, file = some lines ∧ read_tum_lines E [] lines = .ok d ∧
      s = ⟨d, pySorted (dictKeys d), E.ident, m0, vox⟩ := by
  cases file with
  | none => cases h
  | some lines =>
    have h' : (match read_tum_lines E ([] : List (ℚ × P)) lines with
        | Except.error e => Except.error e
        | Except.ok d =>
          Except.ok (⟨d, pySorted (dictKeys d), E.ident, m0, vox⟩ : StubState P M)) =
        Except.ok s := h
    cases heq : read_tum_lines E ([] : List (ℚ × P)) lines with
    | error e => rw [heq] at h'; cases h'
    | ok d =>
      rw [heq] at h'
      simp only [Except.ok.injEq] at h'
      exact ⟨lines, d, rfl, heq, h'.symm⟩

/-- A loaded trajectory dict has no duplicate keys. -/
theorem init_nodup {P Pts Frame M : Type} (E : ExtOps P Pts Frame M) (m0 : M)
    (vox : Option ℚ) (file : Option (List (List TumField))) (s : StubState P M)
    (h : StubOdometry.init E m0 vox file = .ok s) :
    (dictKeys s.traj).Nodup := by
  obtain ⟨lines, d, -, hrd, rfl⟩ := init_ok_cases E m0 vox file s h
  exact read_tum_lines_ok_nodup E lines [] d List.nodup_nil hrd

/-- A successful `StubOdometry.init` establishes the trajectory invariant:
the sorted timestamp list is strictly sorted and enumerates the dict keys. -/
theorem init_wf {P Pts Frame M : Type} (E : ExtOps P Pts Frame M) (m0 : M)
    (vox : Option ℚ) (file : Option (List (List TumField))) (s : StubState P M)
    (h : StubOdometry.init E m0 vox file = .ok s) :
    TrajWF s := by
  have hnd : (dictKeys s.traj).Nodup := init_nodup E m0 vox file s h
  obtain ⟨lines, d, -, hrd, rfl⟩ := init_ok_cases E m0 vox file s h
  have hperm : (pySorted (dictKeys d)).Perm (dictKeys d) :=
    List.perm_insertionSort _ _
  constructor
  · have hs : (pySorted (dictKeys d)).Sorted (· ≤ ·) :=
      List.sorted_insertionSort _ _
    have hnd2 : (pySorted (dictKeys d)).Nodup := hperm.symm.nodup hnd
    exact (List.Pairwise.and hs hnd2).imp fun h => lt_of_le_of_ne h.1 h.2
  · exact hperm

/-- In a `≤`-sorted list, `getD` (with any default) is monotone over in-range
indices. -/
theorem sorted_getD_mono {a : List ℚ} (hs : a.Sorted (· ≤ ·)) :
    ∀ i j : Nat, i ≤ j → j < a.length → a.getD i 0 ≤ a.getD j 0 := by
  intro i j hij hj
  rcases Nat.eq_or_lt_of_le hij with rfl | hlt
  · exact le_refl _
  · rw [List.getD_eq_getElem a 0 (lt_trans hlt hj), List.getD_eq_getElem a 0 hj]
    have := List.Sorted.rel_get_of_lt hs
      (a := ⟨i, lt_trans hlt hj⟩) (b := ⟨j, hj⟩) hlt
    simpa [List.get_eq_getElem] using this

/-- Invariant-based characterization of the `bisect_left` loop on a sorted
list: given enough fuel and the loop invariants (everything left of `lo` is
below `x`, everything from `hi` on is not), the exit value `r` keeps the
invariants, so everything left of `r` is below `x` and everything from `r` on
is at or above `x`. -/
theorem bisect_left_loop_spec (a : List ℚ) (x : ℚ)
    (hmono : ∀ i j : Nat, i ≤ j → j < a.length → a.getD i 0 ≤ a.getD j 0) :
    ∀ (fuel lo hi : Nat), hi - lo ≤ fuel → lo ≤ hi → hi ≤ a.length →
    (∀ j, j < lo → a.getD j 0 < x) →
    (∀ j, hi ≤ j → j < a.length → x ≤ a.getD j 0) →
    (lo ≤ bisect_left_loop a x fuel lo hi ∧ bisect_left_loop a x fuel lo hi ≤ hi) ∧
    (∀ j, j < bisect_left_loop a x fuel lo hi → a.getD j 0 < x) ∧
    (∀ j, bisect_left_loop a x fuel lo hi ≤ j → j < a.length → x ≤ a.getD j 0) := by
  intro fuel
  induction fuel with
  | zero =>
    intro lo hi hfuel hlh _ hlow hhigh
    have heq : lo = hi := by omega
    subst heq
    exact ⟨⟨le_refl _, le_refl _⟩, hlow, hhigh⟩
  | succ fuel ih =>
    intro lo hi hfuel hlh hha hlow hhigh
    simp only [bisect_left_loop]
    by_cases hcond : lo < hi
    · rw [if_pos hcond]
      by_cases hmid : a.getD ((lo + hi) / 2) 0 < x
      · rw [if_pos hmid]
        have hnewlow : ∀ j, j < (lo + hi) / 2 + 1 → a.getD j 0 < x := by
          intro j hj
          exact lt_of_le_of_lt (hmono j ((lo + hi) / 2) (by omega) (by omega)) hmid
        have hrec := ih ((lo + hi) / 2 + 1) hi (by omega) (by omega) hha hnewlow hhigh
        exact ⟨⟨by omega, hrec.1.2⟩, hrec.2⟩
      · rw [if_neg hmid]
        have hnewhigh : ∀ j, (lo + hi) / 2 ≤ j → j < a.length → x ≤ a.getD j 0 := by
          intro j hj hja
          exact le_trans (not_lt.mp hmid) (hmono _ j hj hja)
        have hrec := ih lo ((lo + hi) / 2) (by omega) (by omega) (by omega) hlow hnewhigh
        exact ⟨⟨hrec.1.1, by omega⟩, hrec.2⟩
    · rw [if_neg hcond]
      have heq : lo = hi := by omega
      subst heq
      exact ⟨⟨le_refl _, le_refl _⟩, hlow, hhigh⟩

/-- `bisect_left` on a `≤`-sorted list returns an in-range insertion point:
all entries before it are strictly below `x`, all entries from it on are at
or above `x`. -/
theorem bisect_left_spec (a : List ℚ) (x : ℚ) (hs : a.Sorted (· ≤ ·)) :
    bisect_left a x ≤ a.length ∧
    (∀ j, j < bisect_left a x → a.getD j 0 < x) ∧
    (∀ j, bisect_left a x ≤ j → j < a.length → x ≤ a.getD j 0) := by
  have h := bisect_left_loop_spec a x (sorted_getD_mono hs) a.length 0 a.length
    (by omega) (Nat.zero_le _) (le_refl _)
    (fun j hj => absurd hj (Nat.not_lt_zero j))
    (fun j hj hja => absurd hja (by omega))
  exact ⟨h.1.2, h.2⟩

/-- Core analysis of `_get_pose` on a query strictly between the smallest and
largest stored timestamps and not itself stored: the bisection finds the two
adjacent stored timestamps bracketing the query, both assertions pass, and the
result is the SE3 interpolation between the corresponding stored poses at the
elapsed-time fraction. -/
theorem getPose_bracket {P Pts Frame M : Type} (E : ExtOps P Pts Frame M)
    (s : StubState P M) (stamp t0 tl : ℚ) (hwf : TrajWF s)
    (hno : stamp ∉ dictKeys s.traj)
    (h0 : s.sortedTimes[0]? = some t0) (hlast : s.sortedTimes.getLast? = some tl)
    (hlo : t0 < stamp) (hhi : stamp < tl) :
    ∃ t1 t2 p1 p2, t1 ∈ s.sortedTimes ∧ t2 ∈ s.sortedTimes ∧
      dictGet? s.traj t1 = some p1 ∧ dictGet? s.traj t2 = some p2 ∧
      t1 < stamp ∧ stamp < t2 ∧
      (∀ u ∈ s.sortedTimes, u ≤ t1 ∨ t2 ≤ u) ∧
      StubOdometry.getPose E s stamp =
        .ok (E.interpolate_se3d ((stamp - t1) / (t2 - t1)) p1 p2) := by
  obtain ⟨hsort, hperm⟩ := hwf
  have hsle : s.sortedTimes.Sorted (· ≤ ·) := hsort.le_of_lt
  obtain ⟨hlen0, ht0⟩ := List.getElem?_eq_some.mp h0
  have hlast' : s.sortedTimes[s.sortedTimes.length - 1]? = some tl := by
    rw [← List.getLast?_eq_getElem?]; exact hlast
  obtain ⟨hlenl, htl⟩ := List.getElem?_eq_some.mp hlast'
  obtain ⟨hble, hblow, hbhigh⟩ := bisect_left_spec s.sortedTimes stamp hsle
  have hnone : dictGet? s.traj stamp = none := (dictGet?_eq_none_iff _ _).mpr hno
  have hgd0 : s.sortedTimes.getD 0 0 = t0 := by
    rw [List.getD_eq_getElem s.sortedTimes 0 hlen0, ht0]
  have hgdl : s.sortedTimes.getD (s.sortedTimes.length - 1) 0 = tl := by
    rw [List.getD_eq_getElem s.sortedTimes 0 hlenl, htl]
  have hu0 : bisect_left s.sortedTimes stamp ≠ 0 := by
    intro h
    have := hbhigh 0 (by omega) hlen0
    rw [hgd0] at this
    exact absurd hlo (not_lt.mpr this)
  have hulen : bisect_left s.sortedTimes stamp < s.sortedTimes.length := by
    rcases Nat.lt_or_ge (bisect_left s.sortedTimes stamp) s.sortedTimes.length with h | h
    · exact h
    · exfalso
      have := hblow (s.sortedTimes.length - 1) (by omega)
      rw [hgdl] at this
      exact absurd hhi (not_lt.mpr this.le)
  have ht1lt : s.sortedTimes.getD (bisect_left s.sortedTimes stamp - 1) 0 < stamp :=
    hblow (bisect_left s.sortedTimes stamp - 1) (by omega)
  have ht2ge : stamp ≤ s.sortedTimes.getD (bisect_left s.sortedTimes stamp) 0 :=
    hbhigh (bisect_left s.sortedTimes stamp) (le_refl _) hulen
  have ht1mem : s.sortedTimes.getD (bisect_left s.sortedTimes stamp - 1) 0 ∈ s.sortedTimes := by
    rw [List.getD_eq_getElem s.sortedTimes 0 (by omega : bisect_left s.sortedTimes stamp - 1 < s.sortedTimes.length)]
    exact List.getElem_mem _
  have ht2mem : s.sortedTimes.getD (bisect_left s.sortedTimes stamp) 0 ∈ s.sortedTimes := by
    rw [List.getD_eq_getElem s.sortedTimes 0 hulen]
    exact List.getElem_mem _
  have ht2gt : stamp < s.sortedTimes.getD (bisect_left s.sortedTimes stamp) 0 := by
    rcases lt_or_eq_of_le ht2ge with h | h
    · exact h
    · exact absurd (hperm.mem_iff.mp (h ▸ ht2mem)) hno
  obtain ⟨p1, hp1⟩ := Option.isSome_iff_exists.mp
    ((dictGet?_isSome_iff _ _).mpr (hperm.mem_iff.mp ht1mem))
  obtain ⟨p2, hp2⟩ := Option.isSome_iff_exists.mp
    ((dictGet?_isSome_iff _ _).mpr (hperm.mem_iff.mp ht2mem))
  refine ⟨_, _, p1, p2, ht1mem, ht2mem, hp1, hp2, ht1lt, ht2gt, ?_, ?_⟩
  · intro v hv
    obtain ⟨j, hj, rfl⟩ := List.mem_iff_getElem.mp hv
    rcases le_or_lt j (bisect_left s.sortedTimes stamp - 1) with h | h
    · left
      rw [← List.getD_eq_getElem s.sortedTimes 0 hj]
      exact sorted_getD_mono hsle j _ h (by omega)
    · right
      rw [← List.getD_eq_getElem s.sortedTimes 0 hj]
      exact sorted_getD_mono hsle _ j (by omega) hj
  · have e1 : s.sortedTimes[bisect_left s.sortedTimes stamp - 1]? =
        some (s.sortedTimes.getD (bisect_left s.sortedTimes stamp - 1) 0) := by
      rw [List.getElem?_eq_getElem (by omega : bisect_left s.sortedTimes stamp - 1 < s.sortedTimes.length),
        List.getD_eq_getElem s.sortedTimes 0 (by omega)]
    have e2 : s.sortedTimes[bisect_left s.sortedTimes stamp]? =
        some (s.sortedTimes.getD (bisect_left s.sortedTimes stamp) 0) := by
      rw [List.getElem?_eq_getElem hulen, List.getD_eq_getElem s.sortedTimes 0 hulen]
    simp only [StubOdometry.getPose, hnone, h0]
    rw [if_neg (not_lt.mpr hlo.le)]
    simp only [if_neg hu0, e1, e2]
    rw [if_pos ⟨ht1lt, ht2gt⟩]
    simp only [hp1, hp2]

/-- Python `min` over a nonempty sequence returns an element of it. -/
theorem foldl_min_mem (t : ℚ) (ts : List ℚ) : ts.foldl min t ∈ t :: ts := by
  induction ts generalizing t with
  | nil => simp
  | cons c cs ih =>
    simp only [List.foldl_cons]
    rcases List.mem_cons.mp (ih (min t c)) with h | h
    · rw [h]
      rcases min_choice t c with h' | h'
      · rw [h']; exact List.mem_cons_self t (c :: cs)
      · rw [h']; exact List.mem_cons_of_mem t (List.mem_cons_self c cs)
    · exact List.mem_cons_of_mem t (List.mem_cons_of_mem c h)

/-- Python `min` over a nonempty sequence is a lower bound of it. -/
theorem foldl_min_le (t : ℚ) (ts : List ℚ) : ∀ u ∈ t :: ts, ts.foldl min t ≤ u := by
  induction ts generalizing t with
  | nil =>
    intro u hu
    rw [List.mem_singleton] at hu
    exact hu ▸ le_refl t
  | cons c cs ih =>
    intro u hu
    simp only [List.foldl_cons]
    rcases List.mem_cons.mp hu with rfl | hu' 
    · exact le_trans (ih (min u c) (min u c) (List.mem_cons_self _ cs)) (min_le_left u c)
    · rcases List.mem_cons.mp hu' with rfl | hu''
      · exact le_trans (ih (min t u) (min t u) (List.mem_cons_self _ cs)) (min_le_right t u)
      · exact ih (min t c) u (List.mem_cons_of_mem _ hu'')

/-- Python `max` over a nonempty sequence returns an element of it. -/
theorem foldl_max_mem (t : ℚ) (ts : List ℚ) : ts.foldl max t ∈ t :: ts := by
  induction ts generalizing t with
  | nil => simp
  | cons c cs ih =>
    simp only [List.foldl_cons]
    rcases List.mem_cons.mp (ih (max t c)) with h | h
    · rw [h]
      rcases max_choice t c with h' | h'
      · rw [h']; exact List.mem_cons_self t (c :: cs)
      · rw [h']; exact List.mem_cons_of_mem t (List.mem_cons_self c cs)
    · exact List.mem_cons_of_mem t (List.mem_cons_of_mem c h)

/-- Python `max` over a nonempty sequence is an upper bound of it. -/
theorem le_foldl_max (t : ℚ) (ts : List ℚ) : ∀ u ∈ t :: ts, u ≤ ts.foldl max t := by
  induction ts generalizing t with
  | nil =>
    intro u hu
    rw [List.mem_singleton] at hu
    exact hu ▸ le_refl t
  | cons c cs ih =>
    intro u hu
    simp only [List.foldl_cons]
    rcases List.mem_cons.mp hu with rfl | hu'
    · exact le_trans (le_max_left u c) (ih (max u c) (max u c) (List.mem_cons_self _ cs))
    · rcases List.mem_cons.mp hu' with rfl | hu''
      · exact le_trans (le_max_right t u) (ih (max t u) (max t u) (List.mem_cons_self _ cs))
      · exact ih (max t c) u (List.mem_cons_of_mem _ hu'')

/-- Forward evaluation of a successful `register_frame`: with both pose
lookups succeeding and a configured voxel size, the call deskews with
`motion_delta = inv(min_pose) @ max_pose`, updates the map at
`new_pose = last_pose @ motion_delta`, stores `new_pose`, and returns the
deskewed points paired with `None`. -/
theorem register_frame_ok {P Pts Frame M : Type} (E : ExtOps P Pts Frame M)
    (s : StubState P M) (f : Frame) (t : ℚ) (ts : List ℚ) (pmin pmax : P) (v : ℚ)
    (hmin : StubOdometry.getPose E s (ts.foldl min t) = .ok pmin)
    (hmax : StubOdometry.getPose E s (ts.foldl max t) = .ok pmax)
    (hv : s.voxelSize = some v) :
    StubOdometry.register_frame E s f (t :: ts) =
      .ok ({ s with
              lastPose := E.matmul s.lastPose (E.matmul (E.matinv pmin) pmax),
              localMap := E.map_update s.localMap
                (E.voxel_down_sample
                  (E.preprocess f (t :: ts) (E.matmul (E.matinv pmin) pmax))
                  (v * (1 / 2)))
                (E.matmul s.lastPose (E.matmul (E.matinv pmin) pmax)) },
            (E.preprocess f (t :: ts) (E.matmul (E.matinv pmin) pmax), none)) := by
  simp only [StubOdometry.register_frame, hmin, hmax, hv]

/-- Inversion of a successful `register_frame`: the timestamp list was
nonempty, both pose lookups succeeded, the voxel size was configured, and the
output is determined as in the source. -/
theorem register_frame_ok_inv {P Pts Frame M : Type} (E : ExtOps P Pts Frame M)
    (s : StubState P M) (f : Frame) (ts : List ℚ)
    (out : StubState P M × (Pts × Option P))
    (h : StubOdometry.register_frame E s f ts = .ok out) :
    ∃ t rest pmin pmax v, ts = t :: rest ∧
      StubOdometry.getPose E s (rest.foldl min t) = .ok pmin ∧
      StubOdometry.getPose E s (rest.foldl max t) = .ok pmax ∧
      s.voxelSize = some v ∧
      out = ({ s with
                lastPose := E.matmul s.lastPose (E.matmul (E.matinv pmin) pmax),
                localMap := E.map_update s.localMap
                  (E.voxel_down_sample
                    (E.preprocess f (t :: rest) (E.matmul (E.matinv pmin) pmax))
                    (v * (1 / 2)))
                  (E.matmul s.lastPose (E.matmul (E.matinv pmin) pmax)) },
              (E.preprocess f (t :: rest) (E.matmul (E.matinv pmin) pmax), none)) := by
  cases ts with
  | nil => cases h
  | cons t rest =>
    cases hmin : StubOdometry.getPose E s (rest.foldl min t) with
    | error e =>
      simp only [StubOdometry.register_frame, hmin] at h
      exact Except.noConfusion h
    | ok pmin =>
      cases hmax : StubOdometry.getPose E s (rest.foldl max t) with
      | error e =>
        simp only [StubOdometry.register_frame, hmin, hmax] at h
        exact Except.noConfusion h
      | ok pmax =>
        cases hv : s.voxelSize with
        | none =>
          simp only [StubOdometry.register_frame, hmin, hmax, hv] at h
          exact Except.noConfusion h
        | some v =>
          simp only [StubOdometry.register_frame, hmin, hmax, hv,
            Except.ok.injEq] at h
          exact ⟨t, rest, pmin, pmax, v, rfl, hmin, hmax, rfl, h.symm⟩

/-- C1: for every loaded trajectory with at least two samples and every query
stamp that equals no stored timestamp and lies strictly between the smallest
and largest stored timestamps, the pose lookup finds the two bracketing stored
timestamps `t1 < stamp < t2` by binary search over the sorted timestamps
(they are stored, adjacent, and bracket the stamp) and returns the
SE3-interpolated pose between the poses stored at `t1` and `t2` at fractional
position `(stamp - t1) / (t2 - t1)`. -/
theorem claim_C1 {P Pts Frame M : Type} (E : ExtOps P Pts Frame M) (m0 : M)
    (vox : Option ℚ) (file : Option (List (List TumField))) (s : StubState P M)
    (stamp t0 tl : ℚ)
    (hload : StubOdometry.init E m0 vox file = .ok s)
    (hno : stamp ∉ dictKeys s.traj)
    (h0 : s.sortedTimes[0]? = some t0) (hlast : s.sortedTimes.getLast? = some tl)
    (hlo : t0 < stamp) (hhi : stamp < tl) :
    ∃ t1 t2 p1 p2, t1 ∈ s.sortedTimes ∧ t2 ∈ s.sortedTimes ∧
      dictGet? s.traj t1 = some p1 ∧ dictGet? s.traj t2 = some p2 ∧
      t1 < stamp ∧ stamp < t2 ∧
      (∀ u ∈ s.sortedTimes, u ≤ t1 ∨ t2 ≤ u) ∧
      StubOdometry.getPose E s stamp =
        .ok (E.interpolate_se3d ((stamp - t1) / (t2 - t1)) p1 p2) :=
  getPose_bracket E s stamp t0 tl (init_wf E m0 vox file s hload) hno h0 hlast hlo hhi

/-- C1 witness: the two-sample trajectory `{0, 2}` queried at the
intermediate stamp `1`. -/
theorem claim_C1_witness :
    StubOdometry.init extO 0 (some 1) (some fileEx) = .ok sEx ∧
    (1 : ℚ) ∉ dictKeys sEx.traj ∧
    sEx.sortedTimes[0]? = some 0 ∧ sEx.sortedTimes.getLast? = some 2 ∧
    (0 : ℚ) < 1 ∧ (1 : ℚ) < 2 ∧
    (∃ t1 t2 p1 p2, t1 ∈ sEx.sortedTimes ∧ t2 ∈ sEx.sortedTimes ∧
      dictGet? sEx.traj t1 = some p1 ∧ dictGet? sEx.traj t2 = some p2 ∧
      t1 < 1 ∧ (1 : ℚ) < t2 ∧
      (∀ u ∈ sEx.sortedTimes, u ≤ t1 ∨ t2 ≤ u) ∧
      StubOdometry.getPose extO sEx 1 =
        .ok (extO.interpolate_se3d ((1 - t1) / (t2 - t1)) p1 p2)) :=
  ⟨rfl, by decide, rfl, rfl, by decide, by decide,
    claim_C1 extO 0 (some 1) (some fileEx) sEx 1 0 2 rfl (by decide) rfl rfl
      (by decide) (by decide)⟩

/-- C3: under the same precondition as C1 (a loaded trajectory, a non-stored
stamp strictly between the smallest and largest stored timestamps), neither
internal assertion of the bracket search can fail: the result is never the
`lower_idx >= 0` assertion error nor the `t1 < stamp < t2` bracket assertion
error. -/
theorem claim_C3 {P Pts Frame M : Type} (E : ExtOps P Pts Frame M) (m0 : M)
    (vox : Option ℚ) (file : Option (List (List TumField))) (s : StubState P M)
    (stamp t0 tl : ℚ)
    (hload : StubOdometry.init E m0 vox file = .ok s)
    (hno : stamp ∉ dictKeys s.traj)
    (h0 : s.sortedTimes[0]? = some t0) (hlast : s.sortedTimes.getLast? = some tl)
    (hlo : t0 < stamp) (hhi : stamp < tl) :
    StubOdometry.getPose E s stamp ≠ .error .assertLowerIdx ∧
    StubOdometry.getPose E s stamp ≠ .error .assertBracket := by
  obtain ⟨t1, t2, p1, p2, -, -, -, -, -, -, -, heq⟩ :=
    getPose_bracket E s stamp t0 tl (init_wf E m0 vox file s hload) hno h0 hlast hlo hhi
  rw [heq]
  exact ⟨fun h => Except.noConfusion h, fun h => Except.noConfusion h⟩

/-- C3 witness: the two-sample trajectory `{0, 2}` queried at `1`. -/
theorem claim_C3_witness :
    StubOdometry.init extO 0 (some 1) (some fileEx) = .ok sEx ∧
    (1 : ℚ) ∉ dictKeys sEx.traj ∧
    sEx.sortedTimes[0]? = some 0 ∧ sEx.sortedTimes.getLast? = some 2 ∧
    (0 : ℚ) < 1 ∧ (1 : ℚ) < 2 ∧
    StubOdometry.getPose extO sEx 1 ≠ .error .assertLowerIdx ∧
    StubOdometry.getPose extO sEx 1 ≠ .error .assertBracket :=
  ⟨rfl, by decide, rfl, rfl, by decide, by decide,
    claim_C3 extO 0 (some 1) (some fileEx) sEx 1 0 2 rfl (by decide) rfl rfl
      (by decide) (by decide)⟩

/-- C4: for every loaded trajectory and every stored `(timestamp, pose)`
entry, looking up exactly that timestamp returns that entry's pose unmodified
(the dict hit branch, no interpolation applied). -/
theorem claim_C4 {P Pts Frame M : Type} (E : ExtOps P Pts Frame M) (m0 : M)
    (vox : Option ℚ) (file : Option (List (List TumField))) (s : StubState P M)
    (stamp : ℚ) (pose : P)
    (hload : StubOdometry.init E m0 vox file = .ok s)
    (hmem : (stamp, pose) ∈ s.traj) :
    StubOdometry.getPose E s stamp = .ok pose := by
  have hget : dictGet? s.traj stamp = some pose :=
    dictGet?_eq_some_of_mem (init_nodup E m0 vox file s hload) hmem
  simp only [StubOdometry.getPose, hget]

/-- C4 witness: looking up the stored timestamp `0` of the example
trajectory. -/
theorem claim_C4_witness :
    StubOdometry.init extO 0 (some 1) (some fileEx) = .ok sEx ∧
    ((0 : ℚ), (0 : Int)) ∈ sEx.traj ∧
    StubOdometry.getPose extO sEx 0 = .ok 0 :=
  ⟨rfl, by decide,
    claim_C4 extO 0 (some 1) (some fileEx) sEx 0 0 rfl (by decide)⟩

/-- C5: for every loaded trajectory and every query stamp strictly below the
smallest stored timestamp, the pose lookup returns the identity transform,
without error and without interpolation. -/
theorem claim_C5 {P Pts Frame M : Type} (E : ExtOps P Pts Frame M) (m0 : M)
    (vox : Option ℚ) (file : Option (List (List TumField))) (s : StubState P M)
    (stamp t0 : ℚ)
    (hload : StubOdometry.init E m0 vox file = .ok s)
    (h0 : s.sortedTimes[0]? = some t0) (hstamp : stamp < t0) :
    StubOdometry.getPose E s stamp = .ok E.ident := by
  obtain ⟨hsort, hperm⟩ := init_wf E m0 vox file s hload
  obtain ⟨hlen0, ht0⟩ := List.getElem?_eq_some.mp h0
  have hnone : dictGet? s.traj stamp = none := by
    rw [dictGet?_eq_none_iff]
    intro hmem
    obtain ⟨j, hj, hjeq⟩ := List.mem_iff_getElem.mp (hperm.mem_iff.mpr hmem)
    have hle : t0 ≤ stamp := by
      rw [← ht0, ← hjeq, ← List.getD_eq_getElem s.sortedTimes 0 hlen0,
        ← List.getD_eq_getElem s.sortedTimes 0 hj]
      exact sorted_getD_mono hsort.le_of_lt 0 j (Nat.zero_le j) hj
    exact absurd hstamp (not_lt.mpr hle)
  simp only [StubOdometry.getPose, hnone, h0]
  rw [if_pos hstamp]

/-- C5 witness: querying the example trajectory `{0, 2}` at `-1`. -/
theorem claim_C5_witness :
    StubOdometry.init extO 0 (some 1) (some fileEx) = .ok sEx ∧
    sEx.sortedTimes[0]? = some 0 ∧ (-1 : ℚ) < 0 ∧
    StubOdometry.getPose extO sEx (-1) = .ok extO.ident :=
  ⟨rfl, rfl, by decide,
    claim_C5 extO 0 (some 1) (some fileEx) sEx (-1) 0 rfl rfl (by decide)⟩

/-- C9: for every loaded trajectory and every query stamp strictly above the
largest stored timestamp, the binary search returns the list length, the
subsequent indexing of the sorted timestamp list is out of range, and the
lookup fails with an (uncaught) index error instead of clamping or
extrapolating. -/
theorem claim_C9 {P Pts Frame M : Type} (E : ExtOps P Pts Frame M) (m0 : M)
    (vox : Option ℚ) (file : Option (List (List TumField))) (s : StubState P M)
    (stamp tl : ℚ)
    (hload : StubOdometry.init E m0 vox file = .ok s)
    (hlast : s.sortedTimes.getLast? = some tl) (hstamp : tl < stamp) :
    bisect_left s.sortedTimes stamp = s.sortedTimes.length ∧
    StubOdometry.getPose E s stamp = .error .indexError := by
  obtain ⟨hsort, hperm⟩ := init_wf E m0 vox file s hload
  have hsle : s.sortedTimes.Sorted (· ≤ ·) := hsort.le_of_lt
  have hlast' : s.sortedTimes[s.sortedTimes.length - 1]? = some tl := by
    rw [← List.getLast?_eq_getElem?]; exact hlast
  obtain ⟨hlenl, htl⟩ := List.getElem?_eq_some.mp hlast'
  have hlen0 : 0 < s.sortedTimes.length := by omega
  have hall : ∀ j, j < s.sortedTimes.length → s.sortedTimes.getD j 0 < stamp := by
    intro j hj
    have hle : s.sortedTimes.getD j 0 ≤ s.sortedTimes.getD (s.sortedTimes.length - 1) 0 :=
      sorted_getD_mono hsle j (s.sortedTimes.length - 1) (by omega) (by omega)
    rw [List.getD_eq_getElem s.sortedTimes 0 hlenl, htl] at hle
    exact lt_of_le_of_lt hle hstamp
  obtain ⟨hble, hblow, hbhigh⟩ := bisect_left_spec s.sortedTimes stamp hsle
  have hul : bisect_left s.sortedTimes stamp = s.sortedTimes.length := by
    rcases Nat.lt_or_ge (bisect_left s.sortedTimes stamp) s.sortedTimes.length with h | h
    · exact absurd (hbhigh _ (le_refl _) h) (not_le.mpr (hall _ h))
    · omega
  have hnone : dictGet? s.traj stamp = none := by
    rw [dictGet?_eq_none_iff]
    intro hmem
    obtain ⟨j, hj, hjeq⟩ := List.mem_iff_getElem.mp (hperm.mem_iff.mpr hmem)
    have := hall j hj
    rw [List.getD_eq_getElem s.sortedTimes 0 hj, hjeq] at this
    exact absurd this (lt_irrefl stamp)
  refine ⟨hul, ?_⟩
  have h0' : s.sortedTimes[0]? = some (s.sortedTimes.getD 0 0) := by
    rw [List.getElem?_eq_getElem hlen0, List.getD_eq_getElem s.sortedTimes 0 hlen0]
  have hu0 : bisect_left s.sortedTimes stamp ≠ 0 := by omega
  have e2 : s.sortedTimes[bisect_left s.sortedTimes stamp]? = none := by
    rw [hul]
    exact List.getElem?_eq_none (le_refl _)
  have e1 : s.sortedTimes[bisect_left s.sortedTimes stamp - 1]? =
      some (s.sortedTimes.getD (bisect_left s.sortedTimes stamp - 1) 0) := by
    rw [List.getElem?_eq_getElem (by omega : bisect_left s.sortedTimes stamp - 1 < s.sortedTimes.length),
      List.getD_eq_getElem s.sortedTimes 0 (by omega)]
  simp only [StubOdometry.getPose, hnone, h0']
  rw [if_neg (not_lt.mpr (hall 0 hlen0).le)]
  simp only [if_neg hu0, e1, e2]

/-- C9 witness: querying the example trajectory `{0, 2}` at `3`. -/
theorem claim_C9_witness :
    StubOdometry.init extO 0 (some 1) (some fileEx) = .ok sEx ∧
    sEx.sortedTimes.getLast? = some 2 ∧ (2 : ℚ) < 3 ∧
    (bisect_left sEx.sortedTimes 3 = sEx.sortedTimes.length ∧
      StubOdometry.getPose extO sEx 3 = .error .indexError) :=
  ⟨rfl, rfl, by decide,
    claim_C9 extO 0 (some 1) (some fileEx) sEx 3 2 rfl rfl (by decide)⟩

/-- C2 counterexample: a file whose only line has 5 fields (hence zero valid
samples) loads without any error, producing a state with an empty trajectory —
the load does not fail as the claim asserts. -/
theorem claim_C2_counterexample :
    StubOdometry.init extO 0 (some 1) (some [badLine5]) =
      .ok ⟨[], [], 1, 0, some 1⟩ := rfl

/-- C2 (amended): loading fails with a fatal load error when the source file
does not exist; a file none of whose lines has exactly 8 fields, however,
loads without error into a store with an empty trajectory. -/
theorem claim_C2 :
    (∀ (P Pts Frame M : Type) (E : ExtOps P Pts Frame M) (m0 : M) (vox : Option ℚ),
      StubOdometry.init E m0 vox none = .error .assertFileMissing) ∧
    (∀ (P Pts Frame M : Type) (E : ExtOps P Pts Frame M) (m0 : M) (vox : Option ℚ)
      (lines : List (List TumField)), (∀ l ∈ lines, l.length ≠ 8) →
      StubOdometry.init E m0 vox (some lines) =
        .ok ⟨[], [], E.ident, m0, vox⟩) := by
  refine ⟨fun P Pts Frame M E m0 vox => rfl, ?_⟩
  intro P Pts Frame M E m0 vox lines h
  show (match read_tum_lines E ([] : List (ℚ × P)) lines with
      | Except.error e => Except.error e
      | Except.ok d =>
        Except.ok (⟨d, pySorted (dictKeys d), E.ident, m0, vox⟩ : StubState P M)) =
    Except.ok ⟨[], [], E.ident, m0, vox⟩
  rw [read_tum_lines_all_skip E [] lines h]
  rfl

/-- C2 witness: the amended statement applied to a concrete one-line file with
a 5-field line. -/
theorem claim_C2_witness :
    (∀ l ∈ [badLine5], l.length ≠ 8) ∧
    StubOdometry.init extO 0 (some 1) (some [badLine5]) =
      .ok ⟨[], [], 1, 0, some 1⟩ :=
  ⟨by decide, claim_C2.2 Int Int Int Int extO 0 (some 1) [badLine5] (by decide)⟩

/-- C8: a line whose field count is not 8 is silently skipped — parsing the
file with it is the same as parsing the file without it, for every
accumulated dict — and the concrete file with one well-formed line and one
5-field line loads exactly the one sample. -/
theorem claim_C8 :
    (∀ (P Pts Frame M : Type) (E : ExtOps P Pts Frame M) (acc : List (ℚ × P))
      (line : List TumField) (rest : List (List TumField)), line.length ≠ 8 →
      read_tum_lines E acc (line :: rest) = read_tum_lines E acc rest) ∧
    read_tum_trajectory extO (some [lineAt 0, badLine5]) = .ok [(0, 0)] :=
  ⟨fun P Pts Frame M E acc line rest h => read_tum_lines_skip E acc line rest h, rfl⟩

/-- C8 witness: the skip equation applied to the concrete 5-field line in
front of a well-formed line. -/
theorem claim_C8_witness :
    badLine5.length ≠ 8 ∧
    read_tum_lines extO ([] : List (ℚ × Int)) (badLine5 :: [lineAt 0]) =
      read_tum_lines extO [] [lineAt 0] :=
  ⟨by decide, claim_C8.1 Int Int Int Int extO [] badLine5 [lineAt 0] (by decide)⟩

/-- C10: a line with exactly 8 fields one of which does not parse as a float
makes the load fail with the (uncaught) float-conversion error instead of
being skipped. -/
theorem claim_C10 :
    badLineNaN.length = 8 ∧
    read_tum_trajectory extO (some [badLineNaN]) = .error .valueError :=
  ⟨rfl, rfl⟩

/-- C6: on a nonempty timestamp list on which both pose lookups succeed (and
with a configured voxel size, which the call checks before returning),
`register_frame` takes `t_min` and `t_max` as the minimum and maximum of the
frame's timestamps and computes the motion delta fed to deskewing as
`inverse(lookup(t_min)) ∘ lookup(t_max)`. -/
theorem claim_C6 {P Pts Frame M : Type} (E : ExtOps P Pts Frame M)
    (s : StubState P M) (f : Frame) (t : ℚ) (ts : List ℚ) (pmin pmax : P) (v : ℚ)
    (hmin : StubOdometry.getPose E s (ts.foldl min t) = .ok pmin)
    (hmax : StubOdometry.getPose E s (ts.foldl max t) = .ok pmax)
    (hv : s.voxelSize = some v) :
    pyMin (t :: ts) = some (ts.foldl min t) ∧
    pyMax (t :: ts) = some (ts.foldl max t) ∧
    ts.foldl min t ∈ t :: ts ∧ (∀ u ∈ t :: ts, ts.foldl min t ≤ u) ∧
    ts.foldl max t ∈ t :: ts ∧ (∀ u ∈ t :: ts, u ≤ ts.foldl max t) ∧
    ∃ s1, StubOdometry.register_frame E s f (t :: ts) =
      .ok (s1, (E.preprocess f (t :: ts) (E.matmul (E.matinv pmin) pmax), none)) :=
  ⟨rfl, rfl, foldl_min_mem t ts, foldl_min_le t ts, foldl_max_mem t ts,
    le_foldl_max t ts, _, register_frame_ok E s f t ts pmin pmax v hmin hmax hv⟩

/-- C6 witness: a frame with timestamps `[0, 2]` on the example trajectory. -/
theorem claim_C6_witness :
    StubOdometry.getPose extO sEx ([(2 : ℚ)].foldl min 0) = .ok 0 ∧
    StubOdometry.getPose extO sEx ([(2 : ℚ)].foldl max 0) = .ok 0 ∧
    sEx.voxelSize = some 1 ∧
    (pyMin [0, 2] = some ([(2 : ℚ)].foldl min 0) ∧
     pyMax [0, 2] = some ([(2 : ℚ)].foldl max 0) ∧
     [(2 : ℚ)].foldl min 0 ∈ [(0 : ℚ), 2] ∧
     (∀ u ∈ [(0 : ℚ), 2], [(2 : ℚ)].foldl min 0 ≤ u) ∧
     [(2 : ℚ)].foldl max 0 ∈ [(0 : ℚ), 2] ∧
     (∀ u ∈ [(0 : ℚ), 2], u ≤ [(2 : ℚ)].foldl max 0) ∧
     ∃ s1, StubOdometry.register_frame extO sEx 5 [0, 2] =
       .ok (s1, (extO.preprocess 5 [0, 2] (extO.matmul (extO.matinv 0) 0), none))) :=
  ⟨rfl, rfl, rfl, claim_C6 extO sEx 5 0 [2] 0 0 1 rfl rfl rfl⟩

/-- C7: every successful `register_frame` call looked up the poses at the
minimum and maximum frame timestamps, returns `(deskewed_points, None)` (the
second component is always `None`), and its new stored `last_pose` is the
previous `last_pose` right-composed with the motion delta
`inverse(pose_min) ∘ pose_max`. -/
theorem claim_C7 {P Pts Frame M : Type} (E : ExtOps P Pts Frame M)
    (s : StubState P M) (f : Frame) (ts : List ℚ)
    (out : StubState P M × (Pts × Option P))
    (h : StubOdometry.register_frame E s f ts = .ok out) :
    out.2.2 = none ∧
    ∃ tmin tmax pmin pmax,
      pyMin ts = some tmin ∧ pyMax ts = some tmax ∧
      StubOdometry.getPose E s tmin = .ok pmin ∧
      StubOdometry.getPose E s tmax = .ok pmax ∧
      out.1.lastPose = E.matmul s.lastPose (E.matmul (E.matinv pmin) pmax) ∧
      out.2.1 = E.preprocess f ts (E.matmul (E.matinv pmin) pmax) := by
  obtain ⟨t, rest, pmin, pmax, v, rfl, hmin, hmax, hv, hout⟩ :=
    register_frame_ok_inv E s f ts out h
  subst hout
  exact ⟨rfl, rest.foldl min t, rest.foldl max t, pmin, pmax,
    rfl, rfl, hmin, hmax, rfl, rfl⟩

/-- C7 witness: a frame with timestamps `[0, 2]` on the example trajectory;
the call succeeds and the conclusion holds of its concrete output. -/
theorem claim_C7_witness :
    StubOdometry.register_frame extO sEx 5 [0, 2] =
      .ok (⟨[(0, 0), (2, 0)], [0, 2], 1, 6, some 1⟩, (5, none)) ∧
    (((⟨[(0, 0), (2, 0)], [0, 2], 1, 6, some 1⟩, (5, none)) :
        StubState Int Int × (Int × Option Int)).2.2 = none ∧
      ∃ tmin tmax pmin pmax,
        pyMin [0, 2] = some tmin ∧ pyMax [0, 2] = some tmax ∧
        StubOdometry.getPose extO sEx tmin = .ok pmin ∧
        StubOdometry.getPose extO sEx tmax = .ok pmax ∧
        ((⟨[(0, 0), (2, 0)], [0, 2], 1, 6, some 1⟩, (5, none)) :
          StubState Int Int × (Int × Option Int)).1.lastPose =
          extO.matmul sEx.lastPose (extO.matmul (extO.matinv pmin) pmax) ∧
        ((⟨[(0, 0), (2, 0)], [0, 2], 1, 6, some 1⟩, (5, none)) :
          StubState Int Int × (Int × Option Int)).2.1 =
          extO.preprocess 5 [0, 2] (extO.matmul (extO.matinv pmin) pmax)) :=
  ⟨rfl, claim_C7 extO sEx 5 [0, 2] _ rfl⟩
